import Mathlib

/-!
Shallow embedding of the BingX trading server (`index.js`, the JS main file)
for verification of its request-signing and dispatch logic.

Parameter objects are modelled as insertion-ordered association lists
`List (String × String)`; JS object key lookup is `List.lookup`, and JS
property enumeration order (array-index keys in ascending numeric order
before the remaining keys in insertion order) is modelled explicitly by
`jsEnumEntries`.  Numeric
parameter values (the millisecond timestamp, order quantities) appear here
as their decimal string renderings, matching their coercion to strings in
the template literals of the source.  Byte strings are `List Nat` with each
element below 256; 32-bit words are `Nat` reduced modulo `2 ^ 32`.
-/

namespace TradingServer

/-! ### Bytes, words and hex rendering -/

/-- Reduce a natural number to a 32-bit word. -/
def wmask (x : Nat) : Nat := x % 4294967296

/-- Right rotation of a 32-bit word by `n` bits. -/
def rotr (n x : Nat) : Nat := wmask ((x >>> n) ||| (x <<< (32 - n)))

/-- Bitwise complement of a 32-bit word. -/
def wnot (x : Nat) : Nat := x ^^^ 4294967295

/-- UTF-8 byte sequence of a single character. -/
def utf8CharBytes (c : Char) : List Nat :=
  let n := c.toNat
  if n < 128 then [n]
  else if n < 2048 then [192 + n / 64, 128 + n % 64]
  else if n < 65536 then [224 + n / 4096, 128 + (n / 64) % 64, 128 + n % 64]
  else [240 + n / 262144, 128 + (n / 4096) % 64, 128 + (n / 64) % 64, 128 + n % 64]

/-- UTF-8 byte sequence of a string. -/
def utf8Bytes (s : String) : List Nat := s.data.flatMap utf8CharBytes

/-- Lowercase hexadecimal digit for a value below 16. -/
def hexDigitLower (n : Nat) : Char :=
  if n < 10 then Char.ofNat (48 + n) else Char.ofNat (87 + n)

/-- Uppercase hexadecimal digit for a value below 16. -/
def hexDigitUpper (n : Nat) : Char :=
  if n < 10 then Char.ofNat (48 + n) else Char.ofNat (55 + n)

/-- Lowercase hexadecimal rendering of a byte sequence, two digits per byte. -/
def toHexLower (bytes : List Nat) : String :=
  String.mk (bytes.flatMap (fun b => [hexDigitLower (b / 16), hexDigitLower (b % 16)]))

/-! ### SHA-256 (FIPS 180-4) -/

/-- The 64 SHA-256 round constants. -/
def sha256K : List Nat :=
  [1116352408, 1899447441, 3049323471, 3921009573,
   961987163, 1508970993, 2453635748, 2870763221,
   3624381080, 310598401, 607225278, 1426881987,
   1925078388, 2162078206, 2614888103, 3248222580,
   3835390401, 4022224774, 264347078, 604807628,
   770255983, 1249150122, 1555081692, 1996064986,
   2554220882, 2821834349, 2952996808, 3210313671,
   3336571891, 3584528711, 113926993, 338241895,
   666307205, 773529912, 1294757372, 1396182291,
   1695183700, 1986661051, 2177026350, 2456956037,
   2730485921, 2820302411, 3259730800, 3345764771,
   3516065817, 3600352804, 4094571909, 275423344,
   430227734, 506948616, 659060556, 883997877,
   958139571, 1322822218, 1537002063, 1747873779,
   1955562222, 2024104815, 2227730452, 2361852424,
   2428436474, 2756734187, 3204031479, 3329325298]

/-- Working state of the SHA-256 compression function (eight 32-bit words). -/
structure Sha256State where
  a : Nat
  b : Nat
  c : Nat
  d : Nat
  e : Nat
  f : Nat
  g : Nat
  h : Nat
deriving DecidableEq, Repr

/-- The SHA-256 initial hash value. -/
def sha256Init : Sha256State :=
  ⟨1779033703, 3144134277, 1013904242, 2773480762,
   1359893119, 2600822924, 528734635, 1541459225⟩

def bigSigma0 (x : Nat) : Nat := rotr 2 x ^^^ rotr 13 x ^^^ rotr 22 x

def bigSigma1 (x : Nat) : Nat := rotr 6 x ^^^ rotr 11 x ^^^ rotr 25 x

def smallSigma0 (x : Nat) : Nat := rotr 7 x ^^^ rotr 18 x ^^^ (x >>> 3)

def smallSigma1 (x : Nat) : Nat := rotr 17 x ^^^ rotr 19 x ^^^ (x >>> 10)

def chFn (x y z : Nat) : Nat := (x &&& y) ^^^ (wnot x &&& z)

def majFn (x y z : Nat) : Nat := (x &&& y) ^^^ (x &&& z) ^^^ (y &&& z)

/-- The eight-byte big-endian rendering of a natural number (the message
bit-length field of the SHA-256 padding). -/
def bigEndian8 (n : Nat) : List Nat :=
  (List.range 8).map (fun i => (n >>> (8 * (7 - i))) % 256)

/-- SHA-256 padding: append `0x80`, zero bytes up to 56 mod 64, then the
64-bit big-endian bit length of the original message. -/
def sha256Pad (msg : List Nat) : List Nat :=
  let z := (120 - (msg.length + 1) % 64) % 64
  msg ++ [128] ++ List.replicate z 0 ++ bigEndian8 (8 * msg.length)

/-- Split a byte sequence into 64-byte blocks. -/
def chunks64 : List Nat → List (List Nat)
  | [] => []
  | a :: rest => ((a :: rest).take 64) :: chunks64 ((a :: rest).drop 64)
termination_by l => l.length
decreasing_by simp_all [List.length_drop]; omega

/-- The first sixteen 32-bit words of a block, big-endian. -/
def blockWords (b : List Nat) : Array Nat :=
  ((List.range 16).map (fun i =>
    b.getD (4 * i) 0 * 16777216 + b.getD (4 * i + 1) 0 * 65536 +
    b.getD (4 * i + 2) 0 * 256 + b.getD (4 * i + 3) 0)).toArray

/-- The full 64-entry message schedule of a block. -/
def messageSchedule (b : List Nat) : Array Nat :=
  (List.range 48).foldl
    (fun w i =>
      w.push (wmask (smallSigma1 (w.getD (i + 14) 0) + w.getD (i + 9) 0 +
                     smallSigma0 (w.getD (i + 1) 0) + w.getD i 0)))
    (blockWords b)

/-- One round of the SHA-256 compression function. -/
def sha256Round (w : Array Nat) (s : Sha256State) (i : Nat) : Sha256State :=
  let t1 := wmask (s.h + bigSigma1 s.e + chFn s.e s.f s.g +
                   sha256K.getD i 0 + w.getD i 0)
  let t2 := wmask (bigSigma0 s.a + majFn s.a s.b s.c)
  ⟨wmask (t1 + t2), s.a, s.b, s.c, wmask (s.d + t1), s.e, s.f, s.g⟩

/-- Process one 64-byte block, updating the intermediate hash value. -/
def sha256Block (H : Sha256State) (b : List Nat) : Sha256State :=
  let s := (List.range 64).foldl (sha256Round (messageSchedule b)) H
  ⟨wmask (H.a + s.a), wmask (H.b + s.b), wmask (H.c + s.c), wmask (H.d + s.d),
   wmask (H.e + s.e), wmask (H.f + s.f), wmask (H.g + s.g), wmask (H.h + s.h)⟩

/-- Big-endian bytes of a 32-bit word. -/
def wordBytes (x : Nat) : List Nat :=
  [(x >>> 24) % 256, (x >>> 16) % 256, (x >>> 8) % 256, x % 256]

/-- SHA-256 digest (32 bytes) of a byte sequence. -/
def sha256Bytes (msg : List Nat) : List Nat :=
  let s := (chunks64 (sha256Pad msg)).foldl sha256Block sha256Init
  wordBytes s.a ++ wordBytes s.b ++ wordBytes s.c ++ wordBytes s.d ++
  wordBytes s.e ++ wordBytes s.f ++ wordBytes s.g ++ wordBytes s.h

/-! ### HMAC-SHA256 (RFC 2104) -/

/-- HMAC-SHA256 of a message under a key, both byte sequences. -/
def hmacSha256 (key msg : List Nat) : List Nat :=
  let k0 := if key.length > 64 then sha256Bytes key else key
  let kp := k0 ++ List.replicate (64 - k0.length) 0
  let ipad := kp.map (· ^^^ 54)
  let opad := kp.map (· ^^^ 92)
  sha256Bytes (opad ++ sha256Bytes (ipad ++ msg))

/-- Lowercase hexadecimal HMAC-SHA256 of a message string under a key
string, both taken as their UTF-8 bytes.  This is the behaviour of
CryptoJS.HmacSHA256 applied to two strings, rendered with the hex encoder. -/
def hmacSha256Hex (key msg : String) : String :=
  toHexLower (hmacSha256 (utf8Bytes key) (utf8Bytes msg))

/-! ### encodeURIComponent -/

/-- Characters left unescaped by JS encodeURIComponent: ASCII alphanumerics
and `- _ . ! ~ * ' ( )`. -/
def isUriUnreserved (c : Char) : Bool :=
  c.isAlphanum || c == '-' || c == '_' || c == '.' || c == '!' ||
  c == '~' || c == '*' || c == Char.ofNat 39 || c == '(' || c == ')'

/-- Percent-escape of a single byte, uppercase hex. -/
def percentByte (b : Nat) : String :=
  String.mk ['%', hexDigitUpper (b / 16), hexDigitUpper (b % 16)]

/-- JS encodeURIComponent: unreserved characters pass through, every other
character is replaced by the percent-escapes of its UTF-8 bytes. -/
def encodeURIComponent (s : String) : String :=
  String.join (s.data.map (fun c =>
    if isUriUnreserved c then String.singleton c
    else String.join ((utf8CharBytes c).map percentByte)))

/-! ### The Signer: generateSignature

The JS source sorts `Object.keys(params)`, folds them into a fresh object
keeping only keys whose value is not the empty string, renders the entries
as `key=encodeURIComponent(value)` joined by `&`, and returns
`CryptoJS.HmacSHA256(queryString, secretKey)` as lowercase hex. -/

/-- The entry contributed by key `k` to the `reduce` accumulator object:
present with the looked-up value when that value is not the empty string. -/
def dropEmptyAt (params : List (String × String)) (k : String) :
    Option (String × String) :=
  match params.lookup k with
  | some v => if v = "" then none else some (k, v)
  | none => none

/-- Numeric value of a digit list, most significant first. -/
def digitsVal (ds : List Char) : Nat :=
  ds.foldl (fun n c => 10 * n + (c.toNat - 48)) 0

/-- The numeric value of a JS array-index property key: `some n` when the
key is the canonical decimal numeral of an `n` below `2 ^ 32 - 1`, `none`
otherwise.  The round trip through `toString` enforces canonicity (no
leading zeros, no sign). -/
def arrayIndexVal (s : String) : Option Nat :=
  if s.data ≠ [] ∧ s.data.all Char.isDigit then
    if toString (digitsVal s.data) = s ∧ digitsVal s.data < 4294967295 then
      some (digitsVal s.data)
    else none
  else none

/-- Ordering of parameter entries by the numeric value of their
array-index keys. -/
def numPairLe (a b : String × String) : Prop :=
  (arrayIndexVal a.1).getD 0 ≤ (arrayIndexVal b.1).getD 0

instance : DecidableRel numPairLe :=
  fun a b => inferInstanceAs (Decidable (_ ≤ _))

/-- JS object property enumeration (OrdinaryOwnPropertyKeys) applied to
an insertion-ordered entry list: entries whose key is an array index come
first, in ascending numeric order, followed by the remaining entries in
insertion order. -/
def jsEnumEntries (l : List (String × String)) : List (String × String) :=
  List.insertionSort numPairLe
      (l.filter (fun kv => (arrayIndexVal kv.1).isSome)) ++
    l.filter (fun kv => !(arrayIndexVal kv.1).isSome)

/-- `Object.entries` of the `reduce` result: the keys are inserted into
the accumulator object in ascending sorted order with empty-string values
dropped, and the object is then enumerated in JS property order (its
array-index keys numerically first).  The enumeration order of the
initial `Object.keys(params)` does not matter because those keys are
immediately sorted. -/
def orderedEntries (params : List (String × String)) : List (String × String) :=
  jsEnumEntries
    ((List.insertionSort (· ≤ ·) (params.map Prod.fst)).filterMap
      (dropEmptyAt params))

/-- The canonical query string the source feeds to the HMAC. -/
def queryStringOf (params : List (String × String)) : String :=
  String.intercalate "&" ((orderedEntries params).map
    (fun kv => kv.1 ++ "=" ++ encodeURIComponent kv.2))

/-- generateSignature from the source: lowercase hex HMAC-SHA256 of the
canonical query string under the secret key. -/
def generateSignature (params : List (String × String)) (secretKey : String) :
    String :=
  hmacSha256Hex secretKey (queryStringOf params)

/-- Ordering of parameter entries by key. -/
def pairKeyLe (a b : String × String) : Prop := a.1 ≤ b.1

instance : DecidableRel pairKeyLe :=
  fun a b => inferInstanceAs (Decidable (a.1 ≤ b.1))

/-- The spec's reading of the canonical string: the surviving pairs (those
with non-empty value) sorted ascending by key, each rendered as
`key=value` with the value percent-encoded, joined by `&`. -/
def specCanonicalString (params : List (String × String)) : String :=
  String.intercalate "&"
    ((List.insertionSort pairKeyLe (params.filter (fun kv => kv.2 != ""))).map
      (fun kv => kv.1 ++ "=" ++ encodeURIComponent kv.2))

/-- The amended reading of the canonical string, with JS enumeration
taken into account: among the surviving pairs, those with array-index
keys come first in ascending numeric order, followed by the remaining
pairs in ascending ordinal key order; each pair rendered as `key=value`
with the value percent-encoded, joined by `&`. -/
def specCanonicalStringJs (params : List (String × String)) : String :=
  String.intercalate "&"
    ((List.insertionSort numPairLe
        ((params.filter (fun kv => kv.2 != "")).filter
          (fun kv => (arrayIndexVal kv.1).isSome)) ++
      List.insertionSort pairKeyLe
        ((params.filter (fun kv => kv.2 != "")).filter
          (fun kv => !(arrayIndexVal kv.1).isSome))).map
      (fun kv => kv.1 ++ "=" ++ encodeURIComponent kv.2))

/-- A parameter object has no duplicate keys (true of every JS object). -/
def nodupKeys (l : List (String × String)) : Prop := (l.map Prod.fst).Nodup

instance : DecidablePred nodupKeys :=
  fun l => inferInstanceAs (Decidable (l.map Prod.fst).Nodup)

/-! ### The Request Dispatcher: makeRequest -/

def BASE_URL : String := "https://open-api.bingx.com"

/-- The outbound HTTP call the Dispatcher hands to axios: method, URL, the
API-key header, and the parameter set placed either in the query string
(GET) or the request body (POST). -/
structure HttpRequest where
  method : String
  url : String
  headerApiKey : String
  queryParams : List (String × String)
  bodyParams : List (String × String)
deriving DecidableEq, Repr

/-- JS object property assignment on an insertion-ordered association
list: update in place when the key already exists, append otherwise. -/
def objSet (l : List (String × String)) (k v : String) :
    List (String × String) :=
  if k ∈ l.map Prod.fst then l.map (fun kv => if kv.1 = k then (k, v) else kv)
  else l ++ [(k, v)]

/-- makeRequest from the source, with the wall clock passed explicitly:
merge the timestamp into the caller's params, sign (over just the
timestamp when the caller's params are empty and the method is GET,
otherwise over the merged set), attach the signature, put the API key in
the `X-BX-APIKEY` header, and place the parameters in the query string for
GET or the body otherwise. -/
def makeRequest (method endpoint : String) (params : List (String × String))
    (timestamp : Nat) (apiKey secretKey : String) : HttpRequest :=
  let fullParams := objSet params "timestamp" (toString timestamp)
  let signature :=
    if params.length = 0 ∧ method = "GET" then
      generateSignature [("timestamp", toString timestamp)] secretKey
    else
      generateSignature fullParams secretKey
  let sent := objSet fullParams "signature" signature
  { method := method
    url := BASE_URL ++ endpoint
    headerApiKey := apiKey
    queryParams := if method = "GET" then sent else []
    bodyParams := if method = "GET" then [] else sent }

/-- The parameter set actually transmitted with a request (query string
for GET, body for POST; the other component is empty). -/
def HttpRequest.sentParams (r : HttpRequest) : List (String × String) :=
  r.queryParams ++ r.bodyParams

/-! ### Exchange operations -/

def closePosition (symbol positionSide : String) (ts : Nat) (ak sk : String) :
    HttpRequest :=
  makeRequest "POST" "/openApi/swap/v2/trade/closePosition"
    [("symbol", symbol), ("positionSide", positionSide)] ts ak sk

def cancelOrder (symbol orderId : String) (ts : Nat) (ak sk : String) :
    HttpRequest :=
  makeRequest "POST" "/openApi/swap/v2/trade/cancelOrder"
    [("symbol", symbol), ("orderId", orderId)] ts ak sk

/-- placeMarketOrder from the source; `quantity` is the decimal rendering
of the JS number `parseFloat(quantity)`. -/
def placeMarketOrder (symbol side quantity : String) (ts : Nat)
    (ak sk : String) : HttpRequest :=
  makeRequest "POST" "/openApi/contract/v1/trade/order"
    [("symbol", symbol), ("side", side), ("orderType", "MARKET"),
     ("quantity", quantity)] ts ak sk

/-! ### Bulk operations -/

/-- The two fields of an exchange position record that the bulk operations
read; every other field passes through unexamined. -/
structure Position where
  symbol : String
  positionSide : String
deriving DecidableEq, Repr

/-- The two fields of an exchange order record that the bulk operations
read. -/
structure PendingOrder where
  symbol : String
  orderId : String
deriving DecidableEq, Repr

/-- closeAllPositions from the source, with the fetched position list
passed explicitly: filter to positions whose symbol matches (or all of
them when the argument is the empty string, the default), then dispatch
one closePosition call per survivor. -/
def closeAllPositions (positions : List Position) (symbol : String) (ts : Nat)
    (ak sk : String) : List HttpRequest :=
  (positions.filter (fun pos => symbol == "" || pos.symbol == symbol)).map
    (fun pos => closePosition pos.symbol pos.positionSide ts ak sk)

/-- cancelAllOrders from the source, with the fetched order list passed
explicitly. -/
def cancelAllOrders (orders : List PendingOrder) (symbol : String) (ts : Nat)
    (ak sk : String) : List HttpRequest :=
  (orders.filter (fun order => symbol == "" || order.symbol == symbol)).map
    (fun order => cancelOrder order.symbol order.orderId ts ak sk)

/-- Promise.all over the settled outcomes of the fan-out calls: fulfils
with the list of values when every call fulfils, otherwise rejects with a
rejection reason (determinised here to the first in list order). -/
def promiseAll {ε α : Type} : List (Except ε α) → Except ε (List α)
  | [] => .ok []
  | .error e :: _ => .error e
  | .ok a :: rest => (promiseAll rest).map (fun l => a :: l)

/-- The aggregate result of closeAllPositions, given the environment's
settlement `run` of each dispatched request. -/
def closeAllPositionsSettled {ε α : Type} (run : HttpRequest → Except ε α)
    (positions : List Position) (symbol : String) (ts : Nat)
    (ak sk : String) : Except ε (List α) :=
  promiseAll ((closeAllPositions positions symbol ts ak sk).map run)

/-- The aggregate result of cancelAllOrders, given the environment's
settlement `run` of each dispatched request. -/
def cancelAllOrdersSettled {ε α : Type} (run : HttpRequest → Except ε α)
    (orders : List PendingOrder) (symbol : String) (ts : Nat)
    (ak sk : String) : Except ε (List α) :=
  promiseAll ((cancelAllOrders orders symbol ts ak sk).map run)

/-! ### The price-movement trigger -/

/-- simpleTradingStrategy from the source, with the two fetched prices
passed explicitly as exact rationals (the values `parseFloat` produced
from the ticker price and the previous candle's close): strictly greater
places one fixed-size market BUY, strictly less one market SELL, equal
places nothing and returns null (`none`). -/
def simpleTradingStrategy (symbol : String) (currentPrice previousPrice : ℚ)
    (ts : Nat) (ak sk : String) : Option HttpRequest :=
  if currentPrice > previousPrice then
    some (placeMarketOrder symbol "BUY" "0.01" ts ak sk)
  else if currentPrice < previousPrice then
    some (placeMarketOrder symbol "SELL" "0.01" ts ak sk)
  else
    none

/-! ### JS numbers and parseFloat -/

/-- A JS number as produced by parseFloat: NaN, an infinity, or a finite
value (modelled as an exact rational). -/
inductive JsNum where
  | nan : JsNum
  | inf : JsNum
  | ninf : JsNum
  | val : ℚ → JsNum
deriving DecidableEq, Repr

/-- The JS comparison `x <= 0` (false on NaN). -/
def jsLeZero : JsNum → Bool
  | .nan => false
  | .inf => false
  | .ninf => true
  | .val q => q ≤ 0

/-- The JS predicate `isNaN(x)` on a parseFloat result. -/
def jsIsNaN : JsNum → Bool
  | .nan => true
  | _ => false

/-- Value of an integer part together with a fraction part. -/
def digitsToQ (intPart fracPart : List Char) : ℚ :=
  (digitsVal intPart : ℚ) + (digitsVal fracPart : ℚ) / (10 : ℚ) ^ fracPart.length

/-- Parse an unsigned decimal mantissa (`digits`, `digits.digits` or
`.digits`) from the front of a character list, returning its value and
the remaining characters; fails when no digit is found. -/
def parseMantissa (l : List Char) : Option (ℚ × List Char) :=
  let intPart := l.takeWhile Char.isDigit
  let rest := l.drop intPart.length
  match rest with
  | '.' :: r2 =>
    let fracPart := r2.takeWhile Char.isDigit
    if intPart.isEmpty && fracPart.isEmpty then none
    else some (digitsToQ intPart fracPart, r2.drop fracPart.length)
  | _ => if intPart.isEmpty then none else some ((digitsVal intPart : ℚ), rest)

/-- Apply an exponent part (`e`/`E` already consumed): an optional sign and
at least one digit scale the mantissa by a power of ten; with no digit the
exponent part is not part of the longest valid literal and is ignored. -/
def applyExponent (m : ℚ) (l : List Char) : ℚ :=
  let signAndRest : (Int × List Char) :=
    match l with
    | '-' :: r => (-1, r)
    | '+' :: r => (1, r)
    | _ => (1, l)
  let ds := signAndRest.2.takeWhile Char.isDigit
  if ds.isEmpty then m
  else m * (10 : ℚ) ^ (signAndRest.1 * (digitsVal ds : Int))

/-- Whether a character is JS white space for the purposes of parseFloat's
leading-whitespace skip (the common ASCII white-space characters). -/
def isJsWhitespace (c : Char) : Bool :=
  c == ' ' || c == '\t' || c == '\n' || c == '\r' ||
  c.toNat == 11 || c.toNat == 12

/-- JS parseFloat: skip leading white space, read an optional sign, then
either the literal `Infinity` or the longest decimal literal prefix
(mantissa and optional exponent); NaN when no literal is found. -/
def jsParseFloat (s : String) : JsNum :=
  let l := s.data.dropWhile isJsWhitespace
  let signAndRest : (Bool × List Char) :=
    match l with
    | '-' :: r => (true, r)
    | '+' :: r => (false, r)
    | _ => (false, l)
  let neg := signAndRest.1
  let l2 := signAndRest.2
  if l2.take 8 = "Infinity".data then
    if neg then JsNum.ninf else JsNum.inf
  else
    match parseMantissa l2 with
    | none => JsNum.nan
    | some (m, rest) =>
      let q :=
        match rest with
        | c :: r2 => if c = 'e' ∨ c = 'E' then applyExponent m r2 else m
        | [] => m
      JsNum.val (if neg then -q else q)

/-! ### Chat command handlers

The handlers are embedded up to the delegation boundary: a handler either
replies immediately with a usage or validation message (issuing no
outbound exchange call) or delegates to an exchange operation with the
validated arguments. -/

/-- The exchange operation a chat handler delegates to, with its
arguments. -/
inductive ExchangeCall where
  | market (symbol side : String) (quantity : JsNum)
  | stopLoss (symbol stopPrice : String)
deriving DecidableEq, Repr

/-- Outcome of a chat handler at the delegation boundary. -/
inductive ChatAction where
  | reply (msg : String)
  | delegate (call : ExchangeCall)
deriving DecidableEq, Repr

/-- Split a character list at every space, keeping empty groups, as JS
`split(" ")` does. -/
def splitChars : List Char → List (List Char)
  | [] => [[]]
  | c :: rest =>
    match splitChars rest with
    | [] => [[]]
    | g :: gs => if c = ' ' then [] :: g :: gs else (c :: g) :: gs

/-- `ctx.message.text.split(" ").slice(1)`: the argument words of a chat
command (missing positions read as the empty string, which is falsy in JS
exactly like `undefined`). -/
def chatArgs (text : String) : List String :=
  ((splitChars text.data).map (fun l => String.mk l)).drop 1

/-- The /market handler: check the three arguments are present, the side
is BUY or SELL after uppercasing, and the quantity parses to a positive
number, before delegating to placeMarketOrder. -/
def marketCommand (text : String) : ChatAction :=
  let args := chatArgs text
  let symbol := args.getD 0 ""
  let side := args.getD 1 ""
  let quantity := args.getD 2 ""
  if symbol = "" ∨ side = "" ∨ quantity = "" then
    ChatAction.reply "Usage: /market <symbol> <BUY|SELL> <quantity>"
  else if ¬(side.toUpper = "BUY" ∨ side.toUpper = "SELL") then
    ChatAction.reply "Side must be either BUY or SELL"
  else
    let parsedQuantity := jsParseFloat quantity
    if jsIsNaN parsedQuantity || jsLeZero parsedQuantity then
      ChatAction.reply "Quantity must be a positive number"
    else
      ChatAction.delegate (ExchangeCall.market symbol side.toUpper parsedQuantity)

/-- The /sl handler: check both arguments are present before delegating to
setStopLoss. -/
def slCommand (text : String) : ChatAction :=
  let args := chatArgs text
  let symbol := args.getD 0 ""
  let stopPrice := args.getD 1 ""
  if symbol = "" ∨ stopPrice = "" then
    ChatAction.reply "Usage: /sl <symbol> <stopPrice>"
  else
    ChatAction.delegate (ExchangeCall.stopLoss symbol stopPrice)

/-- Whether a chat outcome issues an outbound exchange call. -/
def issuesCall : ChatAction → Bool
  | ChatAction.reply _ => false
  | ChatAction.delegate _ => true

/-! ### The list-fetch helpers and their dead second statements -/

/-- A statement of a list-fetch helper body: `return makeRequest(...)`. -/
inductive FnStmt where
  | returnRequest (method endpoint : String) (params : List (String × String))
deriving DecidableEq, Repr

/-- The body of getOpenPositions as written: two return statements in
sequence. -/
def getOpenPositionsBody : List FnStmt :=
  [FnStmt.returnRequest "GET" "/openApi/contract/v1/allPosition" [],
   FnStmt.returnRequest "GET" "/openApi/swap/v2/user/positions" []]

/-- The body of getPendingOrders as written: two return statements in
sequence. -/
def getPendingOrdersBody : List FnStmt :=
  [FnStmt.returnRequest "GET" "/openApi/contract/v1/allOrders" [],
   FnStmt.returnRequest "GET" "/openApi/swap/v2/trade/openOrders" []]

/-- Execute a helper body: statements run in order; a return statement
issues its request and stops execution, so statements after it never run.
Returns the returned request (if any) paired with the list of requests
actually issued. -/
def execBody (ts : Nat) (ak sk : String) :
    List FnStmt → Option HttpRequest × List HttpRequest
  | [] => (none, [])
  | FnStmt.returnRequest m e p :: _ =>
    let r := makeRequest m e p ts ak sk
    (some r, [r])

/-! ### Canonicalisation lemmas for the Signer -/

/-- Strict ordering of parameter entries by key. -/
def pairKeyLt (a b : String × String) : Prop := a.1 < b.1

instance : IsTotal (String × String) pairKeyLe :=
  ⟨fun a b => le_total a.1 b.1⟩

instance : IsTrans (String × String) pairKeyLe :=
  ⟨fun _ _ _ h1 h2 => le_trans h1 h2⟩

instance : IsAntisymm (String × String) pairKeyLt :=
  ⟨fun _ _ h1 h2 => (lt_asymm h1 h2).elim⟩

/-- Strict ordering of parameter entries by array-index value. -/
def numPairLt (a b : String × String) : Prop :=
  (arrayIndexVal a.1).getD 0 < (arrayIndexVal b.1).getD 0

instance : IsTotal (String × String) numPairLe :=
  ⟨fun a b => Nat.le_total _ _⟩

instance : IsTrans (String × String) numPairLe :=
  ⟨fun _ _ _ h1 h2 => le_trans h1 h2⟩

instance : IsAntisymm (String × String) numPairLt :=
  ⟨fun _ _ h1 h2 => (lt_asymm h1 h2).elim⟩

theorem dropEmptyAt_fst {l : List (String × String)} {k : String}
    {p : String × String} (h : dropEmptyAt l k = some p) : p.1 = k := by
  unfold dropEmptyAt at h
  cases hl : l.lookup k with
  | none => rw [hl] at h; exact absurd h (by simp)
  | some v =>
    rw [hl] at h
    by_cases hv : v = ""
    · simp [hv] at h
    · simp [hv] at h
      rw [← h]

theorem dropEmptyAt_cons_ne {l : List (String × String)} {k a : String}
    {v : String} (hak : a ≠ k) :
    dropEmptyAt ((k, v) :: l) a = dropEmptyAt l a := by
  have hbeq : (a == k) = false := by simp [hak]
  unfold dropEmptyAt
  rw [List.lookup_cons]
  simp [hbeq]

/-- Walking the keys of an association list with no duplicate keys and
looking each key back up reproduces exactly the entries whose value is
non-empty, in order. -/
theorem filterMap_dropEmptyAt_map_fst (l : List (String × String))
    (h : nodupKeys l) :
    (l.map Prod.fst).filterMap (dropEmptyAt l) =
      l.filter (fun kv => kv.2 != "") := by
  induction l with
  | nil => rfl
  | cons p t ih =>
    obtain ⟨k, v⟩ := p
    have hk : k ∉ t.map Prod.fst := by
      have := h
      unfold nodupKeys at this
      simp only [List.map_cons, List.nodup_cons] at this
      exact this.1
    have hnd : nodupKeys t := by
      have := h
      unfold nodupKeys at this
      simp only [List.map_cons, List.nodup_cons] at this
      exact this.2
    have htail : (t.map Prod.fst).filterMap (dropEmptyAt ((k, v) :: t)) =
        (t.map Prod.fst).filterMap (dropEmptyAt t) := by
      apply List.filterMap_congr
      intro a ha
      exact dropEmptyAt_cons_ne (fun e => hk (e ▸ ha))
    have hhead : dropEmptyAt ((k, v) :: t) k =
        if v = "" then none else some (k, v) := by
      unfold dropEmptyAt
      rw [List.lookup_cons_self]
    by_cases hv : v = ""
    · subst hv
      simp only [List.map_cons, List.filterMap_cons, hhead, if_pos rfl]
      rw [htail, ih hnd]
      simp [List.filter_cons]
    · simp only [List.map_cons, List.filterMap_cons, hhead, if_neg hv]
      rw [htail, ih hnd]
      have : ((k, v).2 != "") = true := by simpa using hv
      simp [List.filter_cons, this]

/-- A list of entries sorted weakly by key and having no duplicate keys is
sorted strictly by key. -/
theorem sorted_pairKeyLt_of_sorted_nodup {l : List (String × String)}
    (hs : List.Pairwise pairKeyLe l) (hn : nodupKeys l) :
    List.Pairwise pairKeyLt l := by
  have hne : List.Pairwise (fun a b : String × String => a.1 ≠ b.1) l := by
    unfold nodupKeys at hn
    exact List.pairwise_map.mp hn
  exact (hs.and hne).imp (fun h => lt_of_le_of_ne h.1 h.2)

theorem nodupKeys_filter {l : List (String × String)}
    (h : nodupKeys l) (f : String × String → Bool) :
    nodupKeys (l.filter f) := by
  unfold nodupKeys at h ⊢
  exact h.sublist ((List.filter_sublist l).map Prod.fst)

/-- The entries the source's reduce pipeline inserts into the accumulator
object are the non-empty-valued pairs sorted ascending by key. -/
theorem sortedKeys_filterMap_eq_sorted_filter (l : List (String × String))
    (h : nodupKeys l) :
    (List.insertionSort (· ≤ ·) (l.map Prod.fst)).filterMap (dropEmptyAt l) =
      List.insertionSort pairKeyLe (l.filter (fun kv => kv.2 != "")) := by
  have hperm1 : List.Perm (List.insertionSort (· ≤ ·) (l.map Prod.fst))
      (l.map Prod.fst) :=
    List.perm_insertionSort _ _
  have hpermA : List.Perm
      ((List.insertionSort (· ≤ ·) (l.map Prod.fst)).filterMap (dropEmptyAt l))
      (l.filter (fun kv => kv.2 != "")) := by
    rw [← filterMap_dropEmptyAt_map_fst l h]
    exact hperm1.filterMap _
  have hperm : List.Perm
      ((List.insertionSort (· ≤ ·) (l.map Prod.fst)).filterMap (dropEmptyAt l))
      (List.insertionSort pairKeyLe (l.filter (fun kv => kv.2 != ""))) :=
    hpermA.trans (List.perm_insertionSort pairKeyLe _).symm
  have hksNodup : (List.insertionSort (· ≤ ·) (l.map Prod.fst)).Nodup :=
    hperm1.symm.nodup h
  have hksSorted : List.Pairwise (· < ·)
      (List.insertionSort (· ≤ ·) (l.map Prod.fst)) := by
    have hle : List.Pairwise (· ≤ ·)
        (List.insertionSort (· ≤ ·) (l.map Prod.fst)) :=
      List.sorted_insertionSort _ _
    exact (hle.and hksNodup).imp (fun h => lt_of_le_of_ne h.1 h.2)
  have hs1 : List.Pairwise pairKeyLt
      ((List.insertionSort (· ≤ ·) (l.map Prod.fst)).filterMap
        (dropEmptyAt l)) := by
    apply List.pairwise_filterMap.mpr
    refine hksSorted.imp ?_
    intro a b hab x hx y hy
    have hxa : x.1 = a := dropEmptyAt_fst hx
    have hyb : y.1 = b := dropEmptyAt_fst hy
    unfold pairKeyLt
    rw [hxa, hyb]
    exact hab
  have hs2 : List.Pairwise pairKeyLt
      (List.insertionSort pairKeyLe (l.filter (fun kv => kv.2 != ""))) := by
    apply sorted_pairKeyLt_of_sorted_nodup (List.sorted_insertionSort _ _)
    unfold nodupKeys
    have hnd : nodupKeys (l.filter (fun kv => kv.2 != "")) :=
      nodupKeys_filter h _
    exact ((List.perm_insertionSort pairKeyLe _).map Prod.fst).symm.nodup hnd
  exact List.eq_of_perm_of_sorted hperm hs1 hs2

theorem arrayIndexVal_canonical {s : String} {n : Nat}
    (h : arrayIndexVal s = some n) : s = toString n := by
  unfold arrayIndexVal at h
  split_ifs at h with h1 h2
  rw [Option.some_inj] at h
  subst h
  exact h2.1.symm

/-- Array-index keys are canonical numerals, so their numeric values
determine them. -/
theorem arrayIndexVal_inj {s t : String} {n : Nat}
    (hs : arrayIndexVal s = some n) (ht : arrayIndexVal t = some n) : s = t :=
  (arrayIndexVal_canonical hs).trans (arrayIndexVal_canonical ht).symm

/-- A list of entries with array-index keys that is sorted weakly by
numeric key value and has no duplicate keys is sorted strictly. -/
theorem sorted_numPairLt_of_sorted_nodup {l : List (String × String)}
    (hs : List.Pairwise numPairLe l) (hn : nodupKeys l)
    (hidx : ∀ kv ∈ l, (arrayIndexVal kv.1).isSome = true) :
    List.Pairwise numPairLt l := by
  have hne : List.Pairwise (fun a b : String × String => a.1 ≠ b.1) l :=
    List.pairwise_map.mp hn
  have hboth := hs.and hne
  rw [List.pairwise_iff_forall_sublist] at hboth ⊢
  intro a b hsub
  have ha : a ∈ l := hsub.subset (by simp)
  have hb : b ∈ l := hsub.subset (by simp)
  rcases hboth hsub with ⟨hle, hne2⟩
  rcases Option.isSome_iff_exists.mp (hidx a ha) with ⟨m, hm⟩
  rcases Option.isSome_iff_exists.mp (hidx b hb) with ⟨mb, hmb⟩
  unfold numPairLe at hle
  unfold numPairLt
  rcases lt_or_eq_of_le hle with hlt | heq
  · exact hlt
  · exfalso
    apply hne2
    rw [hm, hmb] at heq
    simp only [Option.getD_some] at heq
    subst heq
    exact arrayIndexVal_inj hm hmb

/-- Sorting entries by numeric key value is invariant under permutation
of the input when all keys are array indexes and distinct. -/
theorem insertionSort_numPairLe_eq_of_perm {l₁ l₂ : List (String × String)}
    (hp : List.Perm l₁ l₂) (h : nodupKeys l₁)
    (hidx : ∀ kv ∈ l₁, (arrayIndexVal kv.1).isSome = true) :
    List.insertionSort numPairLe l₁ = List.insertionSort numPairLe l₂ := by
  have h₂ : nodupKeys l₂ := (hp.map Prod.fst).nodup h
  have hidx₂ : ∀ kv ∈ l₂, (arrayIndexVal kv.1).isSome = true :=
    fun kv hm => hidx kv (hp.symm.subset hm)
  have hperm : List.Perm (List.insertionSort numPairLe l₁)
      (List.insertionSort numPairLe l₂) :=
    ((List.perm_insertionSort numPairLe l₁).trans hp).trans
      (List.perm_insertionSort numPairLe l₂).symm
  have hs1 : List.Pairwise numPairLt (List.insertionSort numPairLe l₁) := by
    refine sorted_numPairLt_of_sorted_nodup (List.sorted_insertionSort _ _)
      ?_ ?_
    · unfold nodupKeys
      exact ((List.perm_insertionSort numPairLe l₁).map Prod.fst).symm.nodup h
    · exact fun kv hm =>
        hidx kv ((List.perm_insertionSort numPairLe l₁).subset hm)
  have hs2 : List.Pairwise numPairLt (List.insertionSort numPairLe l₂) := by
    refine sorted_numPairLt_of_sorted_nodup (List.sorted_insertionSort _ _)
      ?_ ?_
    · unfold nodupKeys
      exact ((List.perm_insertionSort numPairLe l₂).map Prod.fst).symm.nodup h₂
    · exact fun kv hm =>
        hidx₂ kv ((List.perm_insertionSort numPairLe l₂).subset hm)
  exact List.eq_of_perm_of_sorted hperm hs1 hs2

/-- Filtering commutes with sorting entries by key when keys are
distinct. -/
theorem insertionSort_pairKeyLe_filter (l : List (String × String))
    (p : String × String → Bool) (h : nodupKeys l) :
    (List.insertionSort pairKeyLe l).filter p =
      List.insertionSort pairKeyLe (l.filter p) := by
  have hperm : List.Perm ((List.insertionSort pairKeyLe l).filter p)
      (List.insertionSort pairKeyLe (l.filter p)) :=
    ((List.perm_insertionSort pairKeyLe l).filter p).trans
      (List.perm_insertionSort pairKeyLe (l.filter p)).symm
  have hs1 : List.Pairwise pairKeyLt
      ((List.insertionSort pairKeyLe l).filter p) := by
    have hsorted : List.Pairwise pairKeyLt (List.insertionSort pairKeyLe l) := by
      apply sorted_pairKeyLt_of_sorted_nodup (List.sorted_insertionSort _ _)
      unfold nodupKeys
      exact ((List.perm_insertionSort pairKeyLe l).map Prod.fst).symm.nodup h
    exact hsorted.sublist (List.filter_sublist _)
  have hs2 : List.Pairwise pairKeyLt
      (List.insertionSort pairKeyLe (l.filter p)) := by
    apply sorted_pairKeyLt_of_sorted_nodup (List.sorted_insertionSort _ _)
    unfold nodupKeys
    exact ((List.perm_insertionSort pairKeyLe _).map Prod.fst).symm.nodup
      (nodupKeys_filter h p)
  exact List.eq_of_perm_of_sorted hperm hs1 hs2

/-- The entries the source's reduce-then-entries pipeline produces: the
surviving pairs with array-index keys first in ascending numeric order,
then the remaining surviving pairs in ascending ordinal key order. -/
theorem orderedEntries_eq_js_canonical (l : List (String × String))
    (h : nodupKeys l) :
    orderedEntries l =
      List.insertionSort numPairLe
          ((l.filter (fun kv => kv.2 != "")).filter
            (fun kv => (arrayIndexVal kv.1).isSome)) ++
        List.insertionSort pairKeyLe
          ((l.filter (fun kv => kv.2 != "")).filter
            (fun kv => !(arrayIndexVal kv.1).isSome)) := by
  have hsurv : nodupKeys (l.filter (fun kv => kv.2 != "")) :=
    nodupKeys_filter h _
  unfold orderedEntries jsEnumEntries
  rw [sortedKeys_filterMap_eq_sorted_filter l h]
  congr 1
  · refine insertionSort_numPairLe_eq_of_perm
      ((List.perm_insertionSort pairKeyLe _).filter _) ?_ ?_
    · apply nodupKeys_filter
      unfold nodupKeys
      exact ((List.perm_insertionSort pairKeyLe _).map Prod.fst).symm.nodup
        hsurv
    · intro kv hm
      exact (List.mem_filter.mp hm).2
  · exact insertionSort_pairKeyLe_filter _ _ hsurv

/-- Sorting entries by key is invariant under permutation of the input,
provided keys are distinct. -/
theorem insertionSort_pairKeyLe_eq_of_perm {l₁ l₂ : List (String × String)}
    (hp : List.Perm l₁ l₂) (h : nodupKeys l₁) :
    List.insertionSort pairKeyLe l₁ = List.insertionSort pairKeyLe l₂ := by
  have h₂ : nodupKeys l₂ := (hp.map Prod.fst).nodup h
  have hperm : List.Perm (List.insertionSort pairKeyLe l₁)
      (List.insertionSort pairKeyLe l₂) :=
    ((List.perm_insertionSort pairKeyLe l₁).trans hp).trans
      (List.perm_insertionSort pairKeyLe l₂).symm
  have hs1 : List.Pairwise pairKeyLt (List.insertionSort pairKeyLe l₁) := by
    apply sorted_pairKeyLt_of_sorted_nodup (List.sorted_insertionSort _ _)
    unfold nodupKeys
    exact ((List.perm_insertionSort pairKeyLe l₁).map Prod.fst).symm.nodup h
  have hs2 : List.Pairwise pairKeyLt (List.insertionSort pairKeyLe l₂) := by
    apply sorted_pairKeyLt_of_sorted_nodup (List.sorted_insertionSort _ _)
    unfold nodupKeys
    exact ((List.perm_insertionSort pairKeyLe l₂).map Prod.fst).symm.nodup h₂
  exact List.eq_of_perm_of_sorted hperm hs1 hs2

/-! ### Claim theorems: the Signer -/

/-- C1 counterexample: on the mapping with the two array-index keys
`10` and `9`, JS object enumeration orders the reduce object's keys
numerically, so the byte sequence the code feeds to the HMAC is
`9=y&10=x` and not the ordinal-string-sorted canonical string `10=x&9=y`
asserted by the claim; the two digests are therefore computed from
different byte sequences. -/
theorem signer_ordinal_sort_counterexample :
    nodupKeys [("10", "x"), ("9", "y")] ∧
      queryStringOf [("10", "x"), ("9", "y")] = "9=y&10=x" ∧
      specCanonicalString [("10", "x"), ("9", "y")] = "10=x&9=y" ∧
      queryStringOf [("10", "x"), ("9", "y")] ≠
        specCanonicalString [("10", "x"), ("9", "y")] := by
  have hle : ("10" : String) ≤ "9" := by
    rw [String.le_iff_toList_le]
    decide
  have hq : queryStringOf [("10", "x"), ("9", "y")] = "9=y&10=x" := by
    unfold queryStringOf orderedEntries
    have hsort : List.insertionSort (α := String) (· ≤ ·) ["10", "9"] =
        ["10", "9"] := by
      simp [List.insertionSort, List.orderedInsert, hle]
    simp only [List.map_cons, List.map_nil]
    rw [hsort]
    decide
  have hs : specCanonicalString [("10", "x"), ("9", "y")] = "10=x&9=y" := by
    unfold specCanonicalString
    have hsort : List.insertionSort pairKeyLe [(("10" : String), ("x" : String)), ("9", "y")] =
        [("10", "x"), ("9", "y")] := by
      simp [List.insertionSort, List.orderedInsert, pairKeyLe, hle]
    have hfil : List.filter (fun kv => kv.2 != "")
        [(("10" : String), ("x" : String)), ("9", "y")] =
          [("10", "x"), ("9", "y")] := by decide
    rw [hfil, hsort]
    decide
  exact ⟨by decide, hq, hs, by rw [hq, hs]; decide⟩

/-- C1 (amended): for every parameter mapping (with the distinct keys
every JS object has) and secret key, generateSignature produces the
lowercase hexadecimal HMAC-SHA256 digest of the canonical string whose
entries are the surviving (non-empty-valued) pairs in JS object
enumeration order — pairs whose key is an array index first, in
ascending numeric order, then the remaining pairs in ascending ordinal
key order — each rendered as key=value with the value URL-percent-encoded
and joined with an ampersand; the UTF-8 bytes of that string are exactly
what is fed to the HMAC. -/
theorem signer_hmac_of_js_canonical_string (params : List (String × String))
    (secretKey : String) (h : nodupKeys params) :
    generateSignature params secretKey =
      toHexLower (hmacSha256 (utf8Bytes secretKey)
        (utf8Bytes (specCanonicalStringJs params))) := by
  unfold generateSignature hmacSha256Hex queryStringOf specCanonicalStringJs
  rw [orderedEntries_eq_js_canonical params h]

theorem signer_hmac_of_js_canonical_string_witness :
    nodupKeys [("10", "x"), ("9", "y"), ("a", "1")] ∧
      generateSignature [("10", "x"), ("9", "y"), ("a", "1")] "secret" =
        toHexLower (hmacSha256 (utf8Bytes "secret")
          (utf8Bytes
            (specCanonicalStringJs [("10", "x"), ("9", "y"), ("a", "1")]))) :=
  ⟨by decide, signer_hmac_of_js_canonical_string _ _ (by decide)⟩

/-- C2: the Signer's output is independent of the input key order — on
two parameter mappings that are permutations of one another (with
distinct keys) generateSignature produces the same signature. -/
theorem signer_order_independent (params₁ params₂ : List (String × String))
    (secretKey : String) (hp : List.Perm params₁ params₂)
    (h : nodupKeys params₁) :
    generateSignature params₁ secretKey =
      generateSignature params₂ secretKey := by
  have h₂ : nodupKeys params₂ := (hp.map Prod.fst).nodup h
  unfold generateSignature hmacSha256Hex queryStringOf orderedEntries
  rw [sortedKeys_filterMap_eq_sorted_filter params₁ h,
    sortedKeys_filterMap_eq_sorted_filter params₂ h₂,
    insertionSort_pairKeyLe_eq_of_perm (hp.filter _) (nodupKeys_filter h _)]

theorem signer_order_independent_witness :
    List.Perm [("a", "1"), ("b", "2")] [("b", "2"), ("a", "1")] ∧
      nodupKeys [("a", "1"), ("b", "2")] ∧
      generateSignature [("a", "1"), ("b", "2")] "secret" =
        generateSignature [("b", "2"), ("a", "1")] "secret" :=
  ⟨by decide, by decide,
    signer_order_independent _ _ _ (by decide) (by decide)⟩

/-- C3: entries whose value is the empty string are excluded before
signing — the signature of a mapping containing an empty-string-valued
key equals the signature of the same mapping with that entry removed. -/
theorem signer_drops_empty_values (l₁ l₂ : List (String × String))
    (k secretKey : String) (h : nodupKeys (l₁ ++ (k, "") :: l₂)) :
    generateSignature (l₁ ++ (k, "") :: l₂) secretKey =
      generateSignature (l₁ ++ l₂) secretKey := by
  have h₂ : nodupKeys (l₁ ++ l₂) := by
    unfold nodupKeys at h ⊢
    refine h.sublist (List.Sublist.map Prod.fst ?_)
    exact (List.sublist_cons_self (k, "") l₂).append_left l₁
  unfold generateSignature hmacSha256Hex queryStringOf orderedEntries
  rw [sortedKeys_filterMap_eq_sorted_filter _ h,
    sortedKeys_filterMap_eq_sorted_filter _ h₂]
  have hf : (l₁ ++ (k, "") :: l₂).filter (fun kv => kv.2 != "") =
      (l₁ ++ l₂).filter (fun kv => kv.2 != "") := by
    simp [List.filter_append, List.filter_cons]
  rw [hf]

theorem signer_drops_empty_values_witness :
    nodupKeys [("a", "1"), ("b", "")] ∧
      generateSignature [("a", "1"), ("b", "")] "secret" =
        generateSignature [("a", "1")] "secret" :=
  ⟨by decide,
    signer_drops_empty_values [("a", "1")] [] "b" "secret" (by decide)⟩

/-! ### Claim theorems: the Dispatcher -/

theorem objSet_of_not_mem {l : List (String × String)} {k : String}
    (h : k ∉ l.map Prod.fst) (v : String) : objSet l k v = l ++ [(k, v)] := by
  unfold objSet
  rw [if_neg h]

/-- C4: a GET dispatch whose caller-supplied parameter mapping is empty
computes its signature over exactly the singleton mapping containing the
timestamp (not the empty mapping and nothing larger); every other
dispatch computes it over the full merged parameter set including the
timestamp. -/
theorem dispatcher_signature_scope (method endpoint : String)
    (params : List (String × String)) (ts : Nat) (apiKey secretKey : String) :
    (params = [] ∧ method = "GET" →
      (makeRequest method endpoint params ts apiKey secretKey).sentParams =
        [("timestamp", toString ts),
         ("signature", generateSignature [("timestamp", toString ts)] secretKey)]) ∧
    ("timestamp" ∉ params.map Prod.fst → "signature" ∉ params.map Prod.fst →
      ¬(params = [] ∧ method = "GET") →
      (makeRequest method endpoint params ts apiKey secretKey).sentParams =
        params ++
          [("timestamp", toString ts),
           ("signature",
            generateSignature (params ++ [("timestamp", toString ts)]) secretKey)]) := by
  constructor
  · rintro ⟨hp, hm⟩
    subst hp
    subst hm
    rfl
  · intro ht hs hne
    have hlen : ¬(params.length = 0 ∧ method = "GET") := by
      rintro ⟨h0, hg⟩
      exact hne ⟨List.length_eq_zero.mp h0, hg⟩
    have hfull : objSet params "timestamp" (toString ts) =
        params ++ [("timestamp", toString ts)] := objSet_of_not_mem ht _
    have hs2 : "signature" ∉ (params ++ [("timestamp", toString ts)]).map Prod.fst := by
      simp only [List.map_append, List.mem_append]
      rintro (h | h)
      · exact hs h
      · simp at h
    unfold makeRequest HttpRequest.sentParams
    simp only [hfull, if_neg hlen, objSet_of_not_mem hs2]
    by_cases hm : method = "GET" <;> simp [hm, List.append_assoc]

theorem dispatcher_signature_scope_witness :
    (([] : List (String × String)) = [] ∧ "GET" = "GET" ∧
      (makeRequest "GET" "/e" [] 7 "ak" "sk").sentParams =
        [("timestamp", toString 7),
         ("signature", generateSignature [("timestamp", toString 7)] "sk")]) ∧
    ("timestamp" ∉ [("a", "1")].map Prod.fst ∧
      "signature" ∉ [("a", "1")].map Prod.fst ∧
      ¬(([("a", "1")] : List (String × String)) = [] ∧ "POST" = "GET") ∧
      (makeRequest "POST" "/e" [("a", "1")] 7 "ak" "sk").sentParams =
        [("a", "1")] ++
          [("timestamp", toString 7),
           ("signature",
            generateSignature ([("a", "1")] ++ [("timestamp", toString 7)]) "sk")]) :=
  ⟨⟨rfl, rfl,
    (dispatcher_signature_scope "GET" "/e" [] 7 "ak" "sk").1 ⟨rfl, rfl⟩⟩,
   by decide, by decide, by decide,
    (dispatcher_signature_scope "POST" "/e" [("a", "1")] 7 "ak" "sk").2
      (by decide) (by decide) (by decide)⟩

/-- C5: the API key is attached only as a request header, and the
transmitted parameter set is exactly the caller-supplied parameters plus
the timestamp plus the signature — neither the API key nor the secret key
is among the transmitted parameters (the secret is used only as the HMAC
key inside generateSignature). -/
theorem dispatcher_key_isolation (method endpoint : String)
    (params : List (String × String)) (ts : Nat) (apiKey secretKey : String)
    (ht : "timestamp" ∉ params.map Prod.fst)
    (hs : "signature" ∉ params.map Prod.fst) :
    (makeRequest method endpoint params ts apiKey secretKey).headerApiKey =
        apiKey ∧
    ∃ sig : String,
      (makeRequest method endpoint params ts apiKey secretKey).sentParams =
        params ++ [("timestamp", toString ts), ("signature", sig)] := by
  constructor
  · rfl
  · refine ⟨if params.length = 0 ∧ method = "GET" then
        generateSignature [("timestamp", toString ts)] secretKey
      else generateSignature (objSet params "timestamp" (toString ts))
        secretKey, ?_⟩
    have hfull : objSet params "timestamp" (toString ts) =
        params ++ [("timestamp", toString ts)] := objSet_of_not_mem ht _
    have hs2 : "signature" ∉
        (params ++ [("timestamp", toString ts)]).map Prod.fst := by
      simp only [List.map_append, List.mem_append]
      rintro (h | h)
      · exact hs h
      · simp at h
    unfold makeRequest HttpRequest.sentParams
    simp only [hfull, objSet_of_not_mem hs2]
    by_cases hm : method = "GET" <;> simp [hm, List.append_assoc]

theorem dispatcher_key_isolation_witness :
    "timestamp" ∉ [("a", "1")].map Prod.fst ∧
    "signature" ∉ [("a", "1")].map Prod.fst ∧
    ((makeRequest "GET" "/e" [("a", "1")] 7 "ak" "sk").headerApiKey = "ak" ∧
      ∃ sig : String,
        (makeRequest "GET" "/e" [("a", "1")] 7 "ak" "sk").sentParams =
          [("a", "1")] ++ [("timestamp", toString 7), ("signature", sig)]) :=
  ⟨by decide, by decide,
    dispatcher_key_isolation "GET" "/e" [("a", "1")] 7 "ak" "sk"
      (by decide) (by decide)⟩

/-! ### Claim theorems: bulk operations -/

/-- C6: closeAllPositions dispatches a close call exactly for the
positions whose symbol field equals the argument (exact string match),
and with the empty-string argument (the default, also taken when the chat
command supplies no symbol) it dispatches one close call for every open
position; each dispatched call uses that position's own symbol and
positionSide. -/
theorem close_all_positions_filter (positions : List Position)
    (symbol : String) (ts : Nat) (ak sk : String) :
    (symbol ≠ "" →
      closeAllPositions positions symbol ts ak sk =
        (positions.filter (fun pos => pos.symbol == symbol)).map
          (fun pos => closePosition pos.symbol pos.positionSide ts ak sk)) ∧
    closeAllPositions positions "" ts ak sk =
      positions.map
        (fun pos => closePosition pos.symbol pos.positionSide ts ak sk) := by
  constructor
  · intro hsym
    unfold closeAllPositions
    have hpred : ∀ pos ∈ positions,
        (symbol == "" || pos.symbol == symbol) = (pos.symbol == symbol) := by
      intro pos _
      have : (symbol == "") = false := by simpa using hsym
      rw [this, Bool.false_or]
    rw [List.filter_congr hpred]
  · unfold closeAllPositions
    have hpred : ∀ pos ∈ positions,
        (("" : String) == "" || pos.symbol == "") = true := by
      intro pos _
      rfl
    rw [List.filter_congr hpred, List.filter_true]

theorem close_all_positions_filter_witness :
    ("ETHUSDT" : String) ≠ "" ∧
      closeAllPositions
          [⟨"BTCUSDT", "LONG"⟩, ⟨"ETHUSDT", "SHORT"⟩] "ETHUSDT" 7 "ak" "sk" =
        (([⟨"BTCUSDT", "LONG"⟩, ⟨"ETHUSDT", "SHORT"⟩] : List Position).filter
            (fun pos => pos.symbol == "ETHUSDT")).map
          (fun pos => closePosition pos.symbol pos.positionSide 7 "ak" "sk") :=
  ⟨by decide,
    (close_all_positions_filter
        [⟨"BTCUSDT", "LONG"⟩, ⟨"ETHUSDT", "SHORT"⟩] "ETHUSDT" 7 "ak" "sk").1
      (by decide)⟩

theorem promiseAll_isOk {ε α : Type} (l : List (Except ε α)) :
    (promiseAll l).isOk = l.all Except.isOk := by
  induction l with
  | nil => rfl
  | cons x rest ih =>
    cases x with
    | error e => rfl
    | ok a =>
      simp only [promiseAll, List.all_cons]
      rw [← ih]
      cases promiseAll rest <;> simp [Except.map, Except.isOk, Except.toBool]

/-- C7: a bulk operation (closeAllPositions, cancelAllOrders) succeeds
exactly when every individual fan-out close/cancel call succeeds; a
single failed call rejects the whole aggregate (there is no
partial-success reporting and no per-item retry in the model). -/
theorem bulk_all_or_nothing {ε α : Type} (run : HttpRequest → Except ε α)
    (positions : List Position) (orders : List PendingOrder)
    (symbol : String) (ts : Nat) (ak sk : String) :
    (closeAllPositionsSettled run positions symbol ts ak sk).isOk =
        ((closeAllPositions positions symbol ts ak sk).map run).all
          Except.isOk ∧
    (cancelAllOrdersSettled run orders symbol ts ak sk).isOk =
        ((cancelAllOrders orders symbol ts ak sk).map run).all Except.isOk :=
  ⟨promiseAll_isOk _, promiseAll_isOk _⟩

/-! ### Claim theorem: the price-movement trigger -/

/-- C8: the trigger compares the fetched current price with the prior
candle's close: strictly greater places exactly one fixed-size (0.01)
market BUY order, strictly less exactly one market SELL order, and equal
places no order and returns the non-error null result. -/
theorem strategy_branches (symbol : String)
    (currentPrice previousPrice : ℚ) (ts : Nat) (ak sk : String) :
    (currentPrice > previousPrice →
      simpleTradingStrategy symbol currentPrice previousPrice ts ak sk =
        some (placeMarketOrder symbol "BUY" "0.01" ts ak sk)) ∧
    (currentPrice < previousPrice →
      simpleTradingStrategy symbol currentPrice previousPrice ts ak sk =
        some (placeMarketOrder symbol "SELL" "0.01" ts ak sk)) ∧
    (currentPrice = previousPrice →
      simpleTradingStrategy symbol currentPrice previousPrice ts ak sk =
        none) := by
  refine ⟨fun h => ?_, fun h => ?_, fun h => ?_⟩
  · unfold simpleTradingStrategy
    rw [if_pos h]
  · unfold simpleTradingStrategy
    rw [if_neg (not_lt.mpr (le_of_lt h)), if_pos h]
  · subst h
    unfold simpleTradingStrategy
    rw [if_neg (lt_irrefl _), if_neg (lt_irrefl _)]

theorem strategy_branches_witness :
    ((2 : ℚ) > 1 ∧
      simpleTradingStrategy "BTCUSDT" 2 1 7 "ak" "sk" =
        some (placeMarketOrder "BTCUSDT" "BUY" "0.01" 7 "ak" "sk")) ∧
    ((1 : ℚ) < 2 ∧
      simpleTradingStrategy "BTCUSDT" 1 2 7 "ak" "sk" =
        some (placeMarketOrder "BTCUSDT" "SELL" "0.01" 7 "ak" "sk")) ∧
    simpleTradingStrategy "BTCUSDT" 1 1 7 "ak" "sk" = none :=
  ⟨⟨by norm_num,
      (strategy_branches "BTCUSDT" 2 1 7 "ak" "sk").1 (by norm_num)⟩,
   ⟨by norm_num,
      (strategy_branches "BTCUSDT" 1 2 7 "ak" "sk").2.1 (by norm_num)⟩,
   (strategy_branches "BTCUSDT" 1 1 7 "ak" "sk").2.2 rfl⟩

/-! ### Claim theorems: chat validation and the dead fetch statements -/

/-- C9: the chat handlers validate their arguments before delegating to
an exchange operation, and a validation failure produces a usage or error
reply with no outbound exchange call; in particular /market with a
missing argument, an invalid side, or a non-numeric or non-positive
quantity issues no order call, and /sl with a missing argument issues no
call. -/
theorem chat_validation_before_delegation (text : String) :
    ((chatArgs text).getD 0 "" = "" ∨ (chatArgs text).getD 1 "" = "" ∨
        (chatArgs text).getD 2 "" = "" →
      marketCommand text =
        ChatAction.reply "Usage: /market <symbol> <BUY|SELL> <quantity>") ∧
    (jsIsNaN (jsParseFloat ((chatArgs text).getD 2 "")) = true ∨
        jsLeZero (jsParseFloat ((chatArgs text).getD 2 "")) = true →
      issuesCall (marketCommand text) = false) ∧
    (¬((chatArgs text).getD 1 "").toUpper = "BUY" ∧
        ¬((chatArgs text).getD 1 "").toUpper = "SELL" →
      issuesCall (marketCommand text) = false) ∧
    ((chatArgs text).getD 0 "" = "" ∨ (chatArgs text).getD 1 "" = "" →
      slCommand text = ChatAction.reply "Usage: /sl <symbol> <stopPrice>") := by
  refine ⟨fun h => ?_, fun h => ?_, fun h => ?_, fun h => ?_⟩
  · simp only [marketCommand]
    rw [if_pos h]
  · have hb : (jsIsNaN (jsParseFloat ((chatArgs text).getD 2 "")) ||
        jsLeZero (jsParseFloat ((chatArgs text).getD 2 ""))) = true := by
      rcases h with h | h
      · rw [h, Bool.true_or]
      · rw [h, Bool.or_true]
    simp only [marketCommand]
    split_ifs with h1 h2 <;> rfl
  · simp only [marketCommand]
    split_ifs with h1 h2 h3 <;> try rfl
    rcases h2 with hb | hs
    · exact absurd hb h.1
    · exact absurd hs h.2
  · simp only [slCommand]
    rw [if_pos h]

theorem chat_validation_before_delegation_witness :
    (jsIsNaN (jsParseFloat
          ((chatArgs "/market BTCUSDT BUY abc").getD 2 "")) = true ∨
      jsLeZero (jsParseFloat
          ((chatArgs "/market BTCUSDT BUY abc").getD 2 "")) = true) ∧
    issuesCall (marketCommand "/market BTCUSDT BUY abc") = false ∧
    ((chatArgs "/sl").getD 0 "" = "" ∨ (chatArgs "/sl").getD 1 "" = "") ∧
    slCommand "/sl" = ChatAction.reply "Usage: /sl <symbol> <stopPrice>" :=
  ⟨Or.inl (by decide),
   (chat_validation_before_delegation "/market BTCUSDT BUY abc").2.1
     (Or.inl (by decide)),
   Or.inl (by decide),
   (chat_validation_before_delegation "/sl").2.2.2 (Or.inl (by decide))⟩

/-- C10: getOpenPositions and getPendingOrders each perform exactly the
single GET dispatch to their first endpoint and return its result; the
second return statement in each body is unreachable, so the
/openApi/swap/v2 endpoints named there are never requested by these
helpers. -/
theorem list_fetch_single_dispatch (ts : Nat) (ak sk : String) :
    execBody ts ak sk getOpenPositionsBody =
      (some (makeRequest "GET" "/openApi/contract/v1/allPosition" [] ts ak sk),
       [makeRequest "GET" "/openApi/contract/v1/allPosition" [] ts ak sk]) ∧
    execBody ts ak sk getPendingOrdersBody =
      (some (makeRequest "GET" "/openApi/contract/v1/allOrders" [] ts ak sk),
       [makeRequest "GET" "/openApi/contract/v1/allOrders" [] ts ak sk]) ∧
    ((execBody ts ak sk getOpenPositionsBody).2.all
        (fun r => r.url != BASE_URL ++ "/openApi/swap/v2/user/positions")) =
      true ∧
    ((execBody ts ak sk getPendingOrdersBody).2.all
        (fun r => r.url != BASE_URL ++ "/openApi/swap/v2/trade/openOrders")) =
      true :=
  ⟨rfl, rfl, rfl, rfl⟩

end TradingServer
